import Mathlib

/-!
Shallow embedding of the timeline-composition engine of `src/main.py`
(text-to-video). Strings are modelled as `List Char`; real-valued clip
durations and geometry are modelled as `ℚ` (the Python source computes with
floats; every concrete value appearing in the claims is exactly
representable). Python exceptions are modelled with `Except`.
-/

namespace TextToVideo

/-- Characters Python's `str.strip()` removes (ASCII whitespace). -/
def pyWhitespace (c : Char) : Bool :=
  c = ' ' || c = '\t' || c = '\n' || c = '\r' || c = '\x0b' || c = '\x0c'

/-- Python `str.strip()`: drop leading and trailing whitespace. -/
def pyStrip (s : List Char) : List Char :=
  ((s.dropWhile pyWhitespace).reverse.dropWhile pyWhitespace).reverse

/-- Python `str.replace(old, new)` for a single-character pattern `old`. -/
def replaceChar (old : Char) (new : List Char) : List Char → List Char
  | [] => []
  | c :: t => (if c = old then new else [c]) ++ replaceChar old new t

/-- Python `xml.sax.saxutils.escape`: replace `&`, then `>`, then `<` by their
entity references (the source of `saxutils.escape` performs these three
sequential `str.replace` calls). -/
def saxutils_escape (s : List Char) : List Char :=
  replaceChar '<' "&lt;".data
    (replaceChar '>' "&gt;".data
      (replaceChar '&' "&amp;".data s))

/-- Per-character view of the escape: what one input character contributes. -/
def escChar (c : Char) : List Char :=
  if c = '&' then "&amp;".data
  else if c = '>' then "&gt;".data
  else if c = '<' then "&lt;".data
  else [c]

/-- Character-by-character form of the escape: each input character
contributes `escChar` of itself. -/
def escMap : List Char → List Char
  | [] => []
  | c :: t => escChar c ++ escMap t

/-- Greedy decoder of the escape's output, used to show the escape is
injective. -/
def unescape : List Char → List Char
  | [] => []
  | '&' :: 'a' :: 'm' :: 'p' :: ';' :: t => '&' :: unescape t
  | '&' :: 'g' :: 't' :: ';' :: t => '>' :: unescape t
  | '&' :: 'l' :: 't' :: ';' :: t => '<' :: unescape t
  | c :: t => c :: unescape t

/-- The `class VoiceOver(BaseModel)` of `src/main.py`: character, voice, text,
end_pause. The `text` field stores the value already passed through the
`validate_text` validator (`value.strip()`). -/
structure VoiceOver where
  character : List Char
  voice : List Char
  text : List Char
  end_pause : List Char
deriving DecidableEq, Repr

/-- Construction of a `VoiceOver` from raw field values: the pydantic
`validate_text` validator strips the text, and `end_pause` defaults to
`"500ms"` when not supplied (it never is supplied by the script parser). -/
def VoiceOver.make (character voice text : List Char) : VoiceOver :=
  { character := character, voice := voice, text := pyStrip text,
    end_pause := "500ms".data }

/-- Pydantic construction of a `VoiceOver` with all four input fields given
explicitly: the `validate_text` validator strips the text. -/
def VoiceOver.ofFields (character voice text end_pause : List Char) :
    VoiceOver :=
  { character := character, voice := voice, text := pyStrip text,
    end_pause := end_pause }

/-- Derived `VoiceOver.clean_text`: `self.text.replace("\n", " ")`. -/
def VoiceOver.clean_text (v : VoiceOver) : List Char :=
  replaceChar '\n' [' '] v.text

/-- Derived `VoiceOver.saml_text`:
`f"<speak>{escaped_text}<break time='{self.end_pause}'/></speak>"` where
`escaped_text = saxutils.escape(self.clean_text)`. -/
def VoiceOver.saml_text (v : VoiceOver) : List Char :=
  "<speak>".data ++ saxutils_escape v.clean_text
    ++ "<break time='".data ++ v.end_pause ++ "'/></speak>".data

/-- The source `VoiceOver.filename_base` feeds exactly this byte string into SHA-1
(`character`, `"|"`, `voice`, `"|"`, `saml_text`, in that order) and returns
its hex digest. SHA-1 is a fixed deterministic function, so equality and
distinctness of cache keys are settled on this preimage: equal preimages give
the identical digest, and the code's cache design assumes distinct preimages
give distinct digests (SHA-1 collision freedom). -/
def VoiceOver.hash_input (v : VoiceOver) : List Char :=
  v.character ++ "|".data ++ v.voice ++ "|".data ++ v.saml_text

/-! ## Script parsing (`Script.parse_slides` of `src/main.py`) -/

/-- The `class Character(BaseModel)`: portrait image path and mimic3 voice name. -/
structure Character where
  image : List Char
  voice : List Char
deriving DecidableEq, Repr

/-- A script entry: a YAML mapping, i.e. an ordered association list of
key/value pairs (Python dicts preserve insertion order; `list(item.items())[0]`
is the first inserted pair). Values relevant to the parsing claims are
strings. -/
abbrev Entry := List (List Char × List Char)

/-- Python's `"k" in item` membership test on a dict. -/
def hasKey (k : List Char) (e : Entry) : Bool :=
  e.any fun p => p.1 == k

/-- The slide variant produced by `parse_slides`
(`EmptySlide` / `ImageSlide.parse_obj` / `TextSlide.parse_obj` /
`CodeSlide.parse_obj`). -/
inductive SlideTag where
  | empty
  | image
  | text
  | code
deriving DecidableEq, Repr

/-- A parsed slide: its variant, the raw entry it was parsed from, and the
voice-overs appended to it while it was the current slide. `EmptySlide()` is
`⟨.empty, [], []⟩`. -/
structure PSlide where
  tag : SlideTag
  fields : Entry
  voice_overs : List VoiceOver
deriving DecidableEq, Repr

/-- The exceptions `parse_slides` can raise:
`list(item.items())[0]` on an empty mapping raises `IndexError`, and
`self.characters[key]` on an unknown character raises `KeyError(key)`. -/
inductive ParseErr where
  | indexError
  | keyError (key : List Char)
deriving DecidableEq, Repr

/-- The loop of `Script.parse_slides`, with the mutable `current_item`
threaded explicitly: a reserved key (`image`, then `text`, then `code`, in
that priority order) finishes the current slide and starts a new one of the
corresponding variant; any other entry takes its first key/value pair as a
voice-over (`character=key, text=value, voice=self.characters[key].voice`)
and appends it to the current slide. -/
def parse_go (characters : List (List Char × Character)) :
    List Entry → PSlide → Except ParseErr (List PSlide)
  | [], current_item => .ok [current_item]
  | item :: rest, current_item =>
    if hasKey "image".data item then
      match parse_go characters rest ⟨.image, item, []⟩ with
      | .ok l => .ok (current_item :: l)
      | .error e => .error e
    else if hasKey "text".data item then
      match parse_go characters rest ⟨.text, item, []⟩ with
      | .ok l => .ok (current_item :: l)
      | .error e => .error e
    else if hasKey "code".data item then
      match parse_go characters rest ⟨.code, item, []⟩ with
      | .ok l => .ok (current_item :: l)
      | .error e => .error e
    else
      match item with
      | [] => .error .indexError
      | (key, value) :: _ =>
        match characters.lookup key with
        | none => .error (.keyError key)
        | some ch =>
          parse_go characters rest
            { current_item with
                voice_overs :=
                  current_item.voice_overs ++ [VoiceOver.make key ch.voice value] }

/-- The source `Script.parse_slides`: starts from the implicit `EmptySlide()` as the
current slide and folds the loop over the entries. -/
def parse_slides (characters : List (List Char × Character))
    (entries : List Entry) : Except ParseErr (List PSlide) :=
  parse_go characters entries ⟨.empty, [], []⟩

/-- The voice-over a non-slide entry would contribute: its first key/value
pair resolved through the character registry. -/
def entryVO (characters : List (List Char × Character)) :
    Entry → Option VoiceOver
  | [] => none
  | (key, value) :: _ =>
    (characters.lookup key).map fun ch => VoiceOver.make key ch.voice value

/-- An entry the parser treats as a voice-over line: it has none of the
reserved keys. -/
def isVOEntry (e : Entry) : Bool :=
  !hasKey "image".data e && !hasKey "text".data e && !hasKey "code".data e

/-- The voice-overs a run of voice-over entries contributes, in order;
`none` if some entry is empty or references an unknown character. -/
def entryVOs (characters : List (List Char × Character)) :
    List Entry → Option (List VoiceOver)
  | [] => some []
  | e :: t =>
    match entryVO characters e, entryVOs characters t with
    | some v, some vs => some (v :: vs)
    | _, _ => none

/-! ## Voice-over synthesis batching (`generate_audio`, `write_audio_request`) -/

/-- One row of the batched mimic3 request:
`writer.writerow([self.filename_base, self.voice, self.saml_text])`. The
first component is the SHA-1 preimage standing for `filename_base` (the
output filename stem). -/
structure Row where
  stem : List Char
  voice : List Char
  saml : List Char
deriving DecidableEq, Repr

/-- The source `VoiceOver.write_audio_request`: if the target audio file
`parent / f"{filename_base}.wav"` already exists, write nothing; otherwise
append one request row. The filesystem is modelled as the predicate `fs` on
cache keys (the filename stems): `fs k = true` iff the audio file for key `k`
exists. -/
def write_audio_request (fs : List Char → Bool) (acc : List Row)
    (v : VoiceOver) : List Row :=
  if fs v.hash_input then acc
  else acc ++ [⟨v.hash_input, v.voice, v.saml_text⟩]

/-- Voice-over lists per slide are all `generate_audio` reads from slides. -/
structure ASlide where
  voice_overs : List VoiceOver
deriving DecidableEq, Repr

/-- The source `generate_audio`: accumulate request rows over every slide's voice-overs
in order; if no rows were produced (`if not audio_requests: return`) no
backend request is issued (`none`); otherwise one batched mimic3 call is made
with exactly these rows (`some rows`). -/
def generate_audio (fs : List Char → Bool) (slides : List ASlide) :
    Option (List Row) :=
  let rows := slides.foldl
    (fun acc slide => slide.voice_overs.foldl (write_audio_request fs) acc) []
  if rows = [] then none else some rows

/-- The mimic3 invocation in `generate_audio` is
`subprocess.run([...], text=True, input=audio_requests)` — with `check`
left at its default `False` — while the render step in `main` is
`subprocess.run(["make"], check=True)`. This models `subprocess.run`'s
error behaviour: it raises `CalledProcessError` iff `check` is true and the
child's exit code is non-zero. -/
def subprocess_run (check : Bool) (exitCode : Int) : Except Unit Unit :=
  if check && exitCode != 0 then .error () else .ok ()

/-- The audio-generation step of the pipeline including its backend call:
given the synthesis backend's exit code, run `generate_audio`; when a batch
request is issued the backend is invoked via `subprocess_run` with
`check := false` (the source passes no `check=True`). Returns the rows sent,
or an error if the call raised. -/
def generate_audio_step (fs : List Char → Bool) (slides : List ASlide)
    (backendExit : Int) : Except Unit (Option (List Row)) :=
  match generate_audio fs slides with
  | none => .ok none
  | some rows =>
    match subprocess_run false backendExit with
    | .ok _ => .ok (some rows)
    | .error e => .error e

/-- The render step of `main`: `subprocess.run(["make"], check=True)`. -/
def make_step (makeExit : Int) : Except Unit Unit :=
  subprocess_run true makeExit

/-! ## Timeline composition (the slide loop of `main` in `src/main.py`) -/

/-- The kinds of timed layers `main` emits: audio clips, caption text clips,
slide visual clips, the static caption-region background fill, and character
portrait clips. -/
inductive LayerKind where
  | audio
  | caption
  | visual
  | background
  | portrait
deriving DecidableEq, Repr

/-- A timed layer: kind, absolute start time, duration (both in the same
time unit moviepy uses for clip durations). -/
structure Layer where
  kind : LayerKind
  start : ℚ
  duration : ℚ
deriving DecidableEq, Repr

/-- A slide as the composition loop consumes it: the durations of its
voice-overs' synthesized audio files (in order — `audio_clip.duration` is
known only after synthesis), the optional `min_duration`, and whether
`as_clip()` returns a clip (`EmptySlide.as_clip` returns `None`; every other
variant returns a clip). -/
structure CSlide where
  voDurations : List ℚ
  min_duration : Option ℚ
  hasClip : Bool
deriving DecidableEq, Repr

/-- The inner voice-over loop of `main`: starting from `caption_start`, emit
for each voice-over an audio layer and a caption layer, both at the running
`caption_start` with the voice-over's own audio duration, accumulating
`slide_duration` and advancing `caption_start`. Returns the emitted layers
and the accumulated `slide_duration` (the sum of the durations). -/
def voLoop (caption_start : ℚ) : List ℚ → List Layer × ℚ
  | [] => ([], 0)
  | d :: ds =>
    let rest := voLoop (caption_start + d) ds
    (⟨.audio, caption_start, d⟩ :: ⟨.caption, caption_start, d⟩ :: rest.1,
     d + rest.2)

/-- One iteration of the slide loop of `main` at cursor `last_clip_end`:
run the voice-over loop, apply the `min_duration` floor
(`if slide.min_duration is not None and slide_duration < slide.min_duration`),
and, when the slide has a visual clip, emit it spanning
`[last_clip_end, last_clip_end + slide_duration)`. Returns the emitted layers
and the final `slide_duration` by which the cursor advances. -/
def slideStep (last_clip_end : ℚ) (s : CSlide) : List Layer × ℚ :=
  let vo := voLoop last_clip_end s.voDurations
  let slide_duration :=
    match s.min_duration with
    | some m => if vo.2 < m then m else vo.2
    | none => vo.2
  (vo.1 ++ (if s.hasClip then [⟨.visual, last_clip_end, slide_duration⟩] else []),
   slide_duration)

/-- The slide loop of `main`: walk the slides in order, advancing the cursor
`last_clip_end` by each slide's duration. Returns all slide-derived layers in
emission order and the final cursor. -/
def composeLoop (last_clip_end : ℚ) : List CSlide → List Layer × ℚ
  | [] => ([], last_clip_end)
  | s :: ss =>
    let step := slideStep last_clip_end s
    let rest := composeLoop (last_clip_end + step.2) ss
    (step.1 ++ rest.1, rest.2)

/-- The full composition of `main`: the slide loop from cursor 0, then the
static layers — the caption-region background fill and one portrait layer per
character — each spanning the whole timeline (`set_duration(last_clip_end)`).
Returns the flat layer list and the total duration. -/
def compose (slides : List CSlide) (nCharacters : ℕ) : List Layer × ℚ :=
  let loop := composeLoop 0 slides
  (⟨.background, 0, loop.2⟩ :: loop.1
     ++ List.replicate nCharacters ⟨.portrait, 0, loop.2⟩,
   loop.2)

/-! ## Image fitting (`ImageSlide.fit` of `src/main.py`) -/

/-- The geometry `ImageSlide.fit` produces: the resized image dimensions and
the `set_position` coordinates. -/
structure FitResult where
  width : ℚ
  height : ℚ
  x : ℚ
  y : ℚ
deriving DecidableEq, Repr

/-- The source `ImageSlide.fit`, with the image's natural size passed in place of the
image file. Branches, in source order: a fixed `zoom` scales both dimensions
by it; else if the image exceeds the frame in either dimension, the axis with
the larger image/frame ratio is clamped to the frame and the other follows
the aspect ratio; else if `zoom_to_fit`, the axis with the *smaller*
image/frame ratio is clamped to the frame (enlarging); else the size is kept.
The result is positioned so the image is centered in the frame on both
axes. -/
def ImageSlide_fit (frame_x frame_y frame_width frame_height
    image_width image_height : ℚ) (zoom_to_fit : Bool) (zoom : Option ℚ) :
    FitResult :=
  let wh : ℚ × ℚ :=
    match zoom with
    | some z => (image_width * z, image_height * z)
    | none =>
      if image_width > frame_width ∨ image_height > frame_height then
        if image_width / frame_width > image_height / frame_height then
          (frame_width, frame_width * image_height / image_width)
        else
          (frame_height * image_width / image_height, frame_height)
      else if zoom_to_fit then
        if image_width / frame_width > image_height / frame_height then
          (frame_height * image_width / image_height, frame_height)
        else
          (frame_width, frame_width * image_height / image_width)
      else
        (image_width, image_height)
  ⟨wh.1, wh.2,
   frame_x + (frame_width - wh.1) * (1 / 2),
   frame_y + (frame_height - wh.2) * (1 / 2)⟩

/-! ## Lemmas about the XML escape -/

lemma replaceChar_append (old : Char) (new x y : List Char) :
    replaceChar old new (x ++ y)
      = replaceChar old new x ++ replaceChar old new y := by
  induction x with
  | nil => rfl
  | cons c t ih => simp [replaceChar, ih]

lemma saxutils_escape_cons (c : Char) (t : List Char) :
    saxutils_escape (c :: t) = escChar c ++ saxutils_escape t := by
  have amp : replaceChar '<' "&lt;".data
      (replaceChar '>' "&gt;".data "&amp;".data) = "&amp;".data := by decide
  have gt : replaceChar '<' "&lt;".data
      (replaceChar '>' "&gt;".data [ '>' ]) = "&gt;".data := by decide
  have lt : replaceChar '<' "&lt;".data
      (replaceChar '>' "&gt;".data [ '<' ]) = "&lt;".data := by decide
  by_cases h1 : c = '&'
  · subst h1
    simp [saxutils_escape, replaceChar, replaceChar_append, escChar, amp]
  · by_cases h2 : c = '>'
    · subst h2
      simp [saxutils_escape, replaceChar, replaceChar_append, escChar, h1, gt]
    · by_cases h3 : c = '<'
      · subst h3
        simp [saxutils_escape, replaceChar, replaceChar_append, escChar,
          h1, h2, lt]
      · simp [saxutils_escape, replaceChar, replaceChar_append, escChar,
          h1, h2, h3]

/-- The three sequential `str.replace` calls of `saxutils.escape` act as a
single character-by-character entity substitution. -/
lemma saxutils_escape_eq_escMap (s : List Char) :
    saxutils_escape s = escMap s := by
  induction s with
  | nil => rfl
  | cons c t ih => rw [saxutils_escape_cons, escMap, ih]

lemma unescape_amp (t : List Char) :
    unescape ('&' :: 'a' :: 'm' :: 'p' :: ';' :: t) = '&' :: unescape t := rfl

lemma unescape_gtEnt (t : List Char) :
    unescape ('&' :: 'g' :: 't' :: ';' :: t) = '>' :: unescape t := rfl

lemma unescape_ltEnt (t : List Char) :
    unescape ('&' :: 'l' :: 't' :: ';' :: t) = '<' :: unescape t := rfl

lemma unescape_cons_ne (c : Char) (t : List Char) (h : c ≠ '&') :
    unescape (c :: t) = c :: unescape t := by
  rw [unescape.eq_def]
  split <;> simp_all

lemma unescape_escMap (s : List Char) : unescape (escMap s) = s := by
  induction s with
  | nil => rfl
  | cons c t ih =>
    by_cases h1 : c = '&'
    · subst h1
      show unescape ('&' :: 'a' :: 'm' :: 'p' :: ';' :: escMap t) = _
      rw [unescape_amp, ih]
    · by_cases h2 : c = '>'
      · subst h2
        show unescape ('&' :: 'g' :: 't' :: ';' :: escMap t) = _
        rw [unescape_gtEnt, ih]
      · by_cases h3 : c = '<'
        · subst h3
          show unescape ('&' :: 'l' :: 't' :: ';' :: escMap t) = _
          rw [unescape_ltEnt, ih]
        · rw [escMap]
          unfold escChar
          rw [if_neg h1, if_neg h2, if_neg h3]
          simp only [List.singleton_append]
          rw [unescape_cons_ne c _ h1, ih]

lemma escMap_injective : Function.Injective escMap := by
  intro s1 s2 h
  have := congrArg unescape h
  rwa [unescape_escMap, unescape_escMap] at this

lemma saxutils_escape_injective : Function.Injective saxutils_escape := by
  intro s1 s2 h
  apply escMap_injective
  rwa [saxutils_escape_eq_escMap, saxutils_escape_eq_escMap] at h

lemma escChar_no_markup (c : Char) : '<' ∉ escChar c ∧ '>' ∉ escChar c := by
  by_cases h1 : c = '&'
  · subst h1; decide
  · by_cases h2 : c = '>'
    · subst h2; decide
    · by_cases h3 : c = '<'
      · subst h3; decide
      · unfold escChar
        rw [if_neg h1, if_neg h2, if_neg h3]
        exact ⟨fun h => h3 (List.mem_singleton.mp h).symm,
               fun h => h2 (List.mem_singleton.mp h).symm⟩

lemma escMap_no_markup (s : List Char) :
    '<' ∉ escMap s ∧ '>' ∉ escMap s := by
  induction s with
  | nil => simp [escMap]
  | cons c t ih =>
    rw [escMap]
    constructor
    · simp only [List.mem_append, not_or]
      exact ⟨(escChar_no_markup c).1, ih.1⟩
    · simp only [List.mem_append, not_or]
      exact ⟨(escChar_no_markup c).2, ih.2⟩

/-! ## Lemmas about the parser -/

lemma parse_go_image (chars : List (List Char × Character)) (item : Entry)
    (rest : List Entry) (cur : PSlide)
    (h : hasKey "image".data item = true) :
    parse_go chars (item :: rest) cur
      = (parse_go chars rest ⟨.image, item, []⟩).map (cur :: ·) := by
  cases item with
  | nil => simp [hasKey] at h
  | cons p ps =>
    obtain ⟨k, v⟩ := p
    rw [parse_go, if_pos h]
    cases parse_go chars rest ⟨.image, (k, v) :: ps, []⟩ <;> rfl

lemma parse_go_text (chars : List (List Char × Character)) (item : Entry)
    (rest : List Entry) (cur : PSlide)
    (h1 : hasKey "image".data item = false)
    (h2 : hasKey "text".data item = true) :
    parse_go chars (item :: rest) cur
      = (parse_go chars rest ⟨.text, item, []⟩).map (cur :: ·) := by
  cases item with
  | nil => simp [hasKey] at h2
  | cons p ps =>
    obtain ⟨k, v⟩ := p
    rw [parse_go, if_neg (by simp [h1]), if_pos h2]
    cases parse_go chars rest ⟨.text, (k, v) :: ps, []⟩ <;> rfl

lemma parse_go_code (chars : List (List Char × Character)) (item : Entry)
    (rest : List Entry) (cur : PSlide)
    (h1 : hasKey "image".data item = false)
    (h2 : hasKey "text".data item = false)
    (h3 : hasKey "code".data item = true) :
    parse_go chars (item :: rest) cur
      = (parse_go chars rest ⟨.code, item, []⟩).map (cur :: ·) := by
  cases item with
  | nil => simp [hasKey] at h3
  | cons p ps =>
    obtain ⟨k, v⟩ := p
    rw [parse_go, if_neg (by simp [h1]), if_neg (by simp [h2]), if_pos h3]
    cases parse_go chars rest ⟨.code, (k, v) :: ps, []⟩ <;> rfl

lemma isVOEntry_keys {e : Entry} (h : isVOEntry e = true) :
    hasKey "image".data e = false ∧ hasKey "text".data e = false
      ∧ hasKey "code".data e = false := by
  simp only [isVOEntry, Bool.and_eq_true, Bool.not_eq_true'] at h
  exact ⟨h.1.1, h.1.2, h.2⟩

lemma parse_go_empty_entry (chars : List (List Char × Character))
    (rest : List Entry) (cur : PSlide) :
    parse_go chars ([] :: rest) cur = .error .indexError := rfl

lemma parse_go_unknown (chars : List (List Char × Character))
    (rest : List Entry) (cur : PSlide) (k v : List Char)
    (ps : List (List Char × List Char))
    (h : isVOEntry ((k, v) :: ps) = true)
    (hl : chars.lookup k = none) :
    parse_go chars (((k, v) :: ps) :: rest) cur = .error (.keyError k) := by
  obtain ⟨h1, h2, h3⟩ := isVOEntry_keys h
  rw [parse_go, if_neg (by simp [h1]), if_neg (by simp [h2]),
    if_neg (by simp [h3])]
  rw [hl]

lemma parse_go_vo (chars : List (List Char × Character))
    (rest : List Entry) (cur : PSlide) (k v : List Char)
    (ps : List (List Char × List Char)) (ch : Character)
    (h : isVOEntry ((k, v) :: ps) = true)
    (hl : chars.lookup k = some ch) :
    parse_go chars (((k, v) :: ps) :: rest) cur
      = parse_go chars rest
          ⟨cur.tag, cur.fields,
           cur.voice_overs ++ [VoiceOver.make k ch.voice v]⟩ := by
  obtain ⟨h1, h2, h3⟩ := isVOEntry_keys h
  rw [parse_go, if_neg (by simp [h1]), if_neg (by simp [h2]),
    if_neg (by simp [h3])]
  rw [hl]

lemma parse_go_head (chars : List (List Char × Character)) :
    ∀ (es : List Entry) (cur : PSlide) (slides : List PSlide),
      parse_go chars es cur = .ok slides →
      ∃ vos tail,
        slides = ⟨cur.tag, cur.fields, cur.voice_overs ++ vos⟩ :: tail := by
  intro es
  induction es with
  | nil =>
    intro cur slides h
    rw [parse_go] at h
    obtain rfl : [cur] = slides := by simpa using h
    exact ⟨[], [], by simp⟩
  | cons item rest ih =>
    intro cur slides h
    by_cases h1 : hasKey "image".data item = true
    · rw [parse_go_image chars item rest cur h1] at h
      cases hr : parse_go chars rest ⟨.image, item, []⟩ with
      | error e => rw [hr] at h; simp [Except.map] at h
      | ok l =>
        rw [hr] at h
        obtain rfl : cur :: l = slides := by simpa [Except.map] using h
        exact ⟨[], l, by simp⟩
    · rw [Bool.not_eq_true] at h1
      by_cases h2 : hasKey "text".data item = true
      · rw [parse_go_text chars item rest cur h1 h2] at h
        cases hr : parse_go chars rest ⟨.text, item, []⟩ with
        | error e => rw [hr] at h; simp [Except.map] at h
        | ok l =>
          rw [hr] at h
          obtain rfl : cur :: l = slides := by simpa [Except.map] using h
          exact ⟨[], l, by simp⟩
      · rw [Bool.not_eq_true] at h2
        by_cases h3 : hasKey "code".data item = true
        · rw [parse_go_code chars item rest cur h1 h2 h3] at h
          cases hr : parse_go chars rest ⟨.code, item, []⟩ with
          | error e => rw [hr] at h; simp [Except.map] at h
          | ok l =>
            rw [hr] at h
            obtain rfl : cur :: l = slides := by simpa [Except.map] using h
            exact ⟨[], l, by simp⟩
        · rw [Bool.not_eq_true] at h3
          have hvo : isVOEntry item = true := by
            simp [isVOEntry, h1, h2, h3]
          cases item with
          | nil => rw [parse_go_empty_entry] at h; exact absurd h (by simp)
          | cons p ps =>
            obtain ⟨k, v⟩ := p
            cases hl : chars.lookup k with
            | none =>
              rw [parse_go_unknown chars rest cur k v ps hvo hl] at h
              exact absurd h (by simp)
            | some ch =>
              rw [parse_go_vo chars rest cur k v ps ch hvo hl] at h
              obtain ⟨vos, tail, heq⟩ := ih _ _ h
              refine ⟨VoiceOver.make k ch.voice v :: vos, tail, ?_⟩
              simpa [List.append_assoc] using heq

lemma parse_go_vo_prefix (chars : List (List Char × Character)) :
    ∀ (pre : List Entry) (vos : List VoiceOver) (rest : List Entry)
      (cur : PSlide),
      (∀ e ∈ pre, isVOEntry e = true) → entryVOs chars pre = some vos →
      parse_go chars (pre ++ rest) cur
        = parse_go chars rest ⟨cur.tag, cur.fields, cur.voice_overs ++ vos⟩ := by
  intro pre
  induction pre with
  | nil =>
    intro vos rest cur _ hvos
    have hv : vos = [] := by
      have := hvos.symm
      rw [entryVOs] at this
      simpa using this
    subst hv
    simp only [List.nil_append, List.append_nil]
  | cons e pre' ih =>
    intro vos rest cur hvo hvos
    rw [entryVOs] at hvos
    cases hv : entryVO chars e with
    | none => rw [hv] at hvos; exact absurd hvos (by simp)
    | some vo =>
      rw [hv] at hvos
      cases hvs : entryVOs chars pre' with
      | none => rw [hvs] at hvos; exact absurd hvos (by simp)
      | some vos' =>
        rw [hvs] at hvos
        obtain rfl : vo :: vos' = vos := by simpa using hvos
        have hevo : isVOEntry e = true := hvo e (List.mem_cons_self e pre')
        cases e with
        | nil => simp [entryVO] at hv
        | cons p ps =>
          obtain ⟨k, v⟩ := p
          rw [entryVO] at hv
          cases hl : chars.lookup k with
          | none => rw [hl] at hv; exact absurd hv (by simp)
          | some ch =>
            rw [hl] at hv
            obtain rfl : VoiceOver.make k ch.voice v = vo := by simpa using hv
            rw [List.cons_append, parse_go_vo chars _ cur k v ps ch hevo hl]
            rw [ih vos' rest _ (fun e he => hvo e (List.mem_cons_of_mem _ he))
              hvs]
            simp [List.append_assoc]

lemma parse_go_head_of_slideEntry (chars : List (List Char × Character))
    (rest : List Entry) (cur : PSlide) (slides : List PSlide)
    (h : parse_go chars rest cur = .ok slides)
    (hrest : rest = [] ∨ ∃ e rest', rest = e :: rest'
      ∧ (hasKey "image".data e || hasKey "text".data e
          || hasKey "code".data e) = true) :
    slides.head? = some cur := by
  rcases hrest with rfl | ⟨e, rest', rfl, hres⟩
  · rw [parse_go] at h
    obtain rfl : [cur] = slides := by simpa using h
    rfl
  · by_cases h1 : hasKey "image".data e = true
    · rw [parse_go_image chars e rest' cur h1] at h
      cases hr : parse_go chars rest' ⟨.image, e, []⟩ with
      | error x => rw [hr] at h; simp [Except.map] at h
      | ok l =>
        rw [hr] at h
        obtain rfl : cur :: l = slides := by simpa [Except.map] using h
        rfl
    · rw [Bool.not_eq_true] at h1
      by_cases h2 : hasKey "text".data e = true
      · rw [parse_go_text chars e rest' cur h1 h2] at h
        cases hr : parse_go chars rest' ⟨.text, e, []⟩ with
        | error x => rw [hr] at h; simp [Except.map] at h
        | ok l =>
          rw [hr] at h
          obtain rfl : cur :: l = slides := by simpa [Except.map] using h
          rfl
      · rw [Bool.not_eq_true] at h2
        have h3 : hasKey "code".data e = true := by
          rcases Bool.or_eq_true_iff.mp hres with hor | h3
          · rcases Bool.or_eq_true_iff.mp hor with h1' | h2'
            · rw [h1] at h1'; exact absurd h1' (by simp)
            · rw [h2] at h2'; exact absurd h2' (by simp)
          · exact h3
        rw [parse_go_code chars e rest' cur h1 h2 h3] at h
        cases hr : parse_go chars rest' ⟨.code, e, []⟩ with
        | error x => rw [hr] at h; simp [Except.map] at h
        | ok l =>
          rw [hr] at h
          obtain rfl : cur :: l = slides := by simpa [Except.map] using h
          rfl

/-! ## C5: parse errors -/

/-- C5 (amended). Parsing fails with a `KeyError` (the `UnknownCharacter`
failure, carrying the offending name) when a voice-over entry's FIRST key is
absent from the character registry, and fails with an `IndexError` when an
entry is an empty mapping; but an entry with multiple keys none of which is
reserved does NOT fail as malformed: the parser takes its first key/value
pair as a voice-over line (failing only if that first key is an unregistered
character). -/
theorem C5_parse_errors :
    (∀ (chars : List (List Char × Character)) (rest : List Entry)
      (cur : PSlide) (k v : List Char) (ps : List (List Char × List Char)),
      isVOEntry ((k, v) :: ps) = true → chars.lookup k = none →
      parse_go chars (((k, v) :: ps) :: rest) cur = .error (.keyError k))
    ∧ (∀ (chars : List (List Char × Character)) (rest : List Entry)
      (cur : PSlide),
      parse_go chars ([] :: rest) cur = .error .indexError)
    ∧ (∀ (chars : List (List Char × Character)) (rest : List Entry)
      (cur : PSlide) (k v : List Char) (ps : List (List Char × List Char))
      (ch : Character),
      isVOEntry ((k, v) :: ps) = true → chars.lookup k = some ch →
      parse_go chars (((k, v) :: ps) :: rest) cur
        = parse_go chars rest
            ⟨cur.tag, cur.fields,
             cur.voice_overs ++ [VoiceOver.make k ch.voice v]⟩) :=
  ⟨fun chars rest cur k v ps h hl => parse_go_unknown chars rest cur k v ps h hl,
   fun chars rest cur => parse_go_empty_entry chars rest cur,
   fun chars rest cur k v ps ch h hl => parse_go_vo chars rest cur k v ps ch h hl⟩

/-- C5 counterexample: the entry `{a: x, b: y}` has two keys and no reserved
key, so by the claim parsing should fail with `MalformedScriptEntry`; instead
(with `a` a registered character) parsing succeeds and attaches a voice-over
for `a` to the implicit Empty slide, ignoring the second key. -/
theorem C5_counterexample :
    parse_slides [("a".data, ⟨"p".data, "v".data⟩)]
        [[("a".data, "x".data), ("b".data, "y".data)]]
      = .ok [⟨.empty, [], [VoiceOver.make "a".data "v".data "x".data]⟩] := rfl

/-- C5 witness: the amended theorem's three cases at concrete inputs. -/
theorem C5_witness :
    (isVOEntry [("z".data, "x".data)] = true
      ∧ List.lookup "z".data ([] : List (List Char × Character)) = none
      ∧ parse_go [] [[("z".data, "x".data)]] ⟨.empty, [], []⟩
        = .error (.keyError "z".data))
    ∧ parse_go [] [[]] ⟨.empty, [], []⟩ = .error .indexError
    ∧ (isVOEntry [("a".data, "x".data), ("b".data, "y".data)] = true
      ∧ List.lookup "a".data [("a".data, (⟨"p".data, "v".data⟩ : Character))]
        = some ⟨"p".data, "v".data⟩
      ∧ parse_go [("a".data, ⟨"p".data, "v".data⟩)]
          [[("a".data, "x".data), ("b".data, "y".data)]] ⟨.empty, [], []⟩
        = parse_go [("a".data, ⟨"p".data, "v".data⟩)] []
            ⟨SlideTag.empty, [],
             [] ++ [VoiceOver.make "a".data "v".data "x".data]⟩) :=
  ⟨⟨rfl, rfl, C5_parse_errors.1 [] [] ⟨.empty, [], []⟩ "z".data "x".data []
      rfl rfl⟩,
   C5_parse_errors.2.1 [] [] ⟨.empty, [], []⟩,
   ⟨rfl, rfl, C5_parse_errors.2.2 [("a".data, ⟨"p".data, "v".data⟩)] []
      ⟨.empty, [], []⟩ "a".data "x".data [("b".data, "y".data)]
      ⟨"p".data, "v".data⟩ rfl rfl⟩⟩

/-! ## C6: parser output structure -/

/-- C6: (1) whenever parsing succeeds, the first slide of the output is the
implicit initial Empty slide (carrying whatever voice-overs attached to it);
(2)–(4) an entry with a reserved key starts a new slide of the corresponding
variant, the keys checked in the priority order `image`, `text`, `code`;
(5) a non-reserved entry's resolved voice-over is appended to the current
(most recently started) slide; (6) for a script whose first entries are N
voice-over entries followed by a slide-type entry (or nothing), all N
voice-overs attach to the implicit initial Empty slide. -/
theorem C6_parser_structure :
    (∀ (chars : List (List Char × Character)) (entries : List Entry)
      (slides : List PSlide),
      parse_slides chars entries = .ok slides →
      ∃ vos tail, slides = ⟨.empty, [], vos⟩ :: tail)
    ∧ (∀ (chars : List (List Char × Character)) (item : Entry)
      (rest : List Entry) (cur : PSlide),
      hasKey "image".data item = true →
      parse_go chars (item :: rest) cur
        = (parse_go chars rest ⟨.image, item, []⟩).map (cur :: ·))
    ∧ (∀ (chars : List (List Char × Character)) (item : Entry)
      (rest : List Entry) (cur : PSlide),
      hasKey "image".data item = false → hasKey "text".data item = true →
      parse_go chars (item :: rest) cur
        = (parse_go chars rest ⟨.text, item, []⟩).map (cur :: ·))
    ∧ (∀ (chars : List (List Char × Character)) (item : Entry)
      (rest : List Entry) (cur : PSlide),
      hasKey "image".data item = false → hasKey "text".data item = false →
      hasKey "code".data item = true →
      parse_go chars (item :: rest) cur
        = (parse_go chars rest ⟨.code, item, []⟩).map (cur :: ·))
    ∧ (∀ (chars : List (List Char × Character)) (item : Entry)
      (rest : List Entry) (cur : PSlide) (k v : List Char)
      (ps : List (List Char × List Char)) (ch : Character),
      item = (k, v) :: ps → isVOEntry item = true → chars.lookup k = some ch →
      parse_go chars (item :: rest) cur
        = parse_go chars rest
            ⟨cur.tag, cur.fields,
             cur.voice_overs ++ [VoiceOver.make k ch.voice v]⟩)
    ∧ (∀ (chars : List (List Char × Character)) (pre rest : List Entry)
      (slides : List PSlide) (vos : List VoiceOver),
      (∀ e ∈ pre, isVOEntry e = true) → entryVOs chars pre = some vos →
      (rest = [] ∨ ∃ e rest', rest = e :: rest'
        ∧ (hasKey "image".data e || hasKey "text".data e
            || hasKey "code".data e) = true) →
      parse_slides chars (pre ++ rest) = .ok slides →
      slides.head? = some ⟨.empty, [], vos⟩) := by
  refine ⟨?_, parse_go_image, parse_go_text, parse_go_code, ?_, ?_⟩
  · intro chars entries slides h
    obtain ⟨vos, tail, heq⟩ := parse_go_head chars entries ⟨.empty, [], []⟩ slides h
    exact ⟨vos, tail, by simpa using heq⟩
  · intro chars item rest cur k v ps ch hitem hvo hl
    subst hitem
    exact parse_go_vo chars rest cur k v ps ch hvo hl
  · intro chars pre rest slides vos hvo hvos hrest h
    rw [parse_slides, parse_go_vo_prefix chars pre vos rest _ hvo hvos] at h
    have := parse_go_head_of_slideEntry chars rest _ slides h hrest
    simpa using this

/-- C6 witness: a script whose first two entries are voice-over lines for
the registered character `a`, followed by an image entry — both voice-overs
attach to the implicit initial Empty slide, which is the first parsed
slide. -/
theorem C6_witness :
    (parse_slides [("a".data, ⟨"p".data, "v".data⟩)]
        ([[("a".data, "x".data)], [("a".data, "y".data)]]
          ++ [[("image".data, "i".data)]])
      = .ok [⟨.empty, [],
              [VoiceOver.make "a".data "v".data "x".data,
               VoiceOver.make "a".data "v".data "y".data]⟩,
             ⟨.image, [("image".data, "i".data)], []⟩])
    ∧ [(⟨.empty, [],
        [VoiceOver.make "a".data "v".data "x".data,
         VoiceOver.make "a".data "v".data "y".data]⟩ : PSlide),
       ⟨.image, [("image".data, "i".data)], []⟩].head?
      = some ⟨.empty, [],
              [VoiceOver.make "a".data "v".data "x".data,
               VoiceOver.make "a".data "v".data "y".data]⟩
    ∧ (∃ vos tail,
        [(⟨.empty, [],
          [VoiceOver.make "a".data "v".data "x".data,
           VoiceOver.make "a".data "v".data "y".data]⟩ : PSlide),
         ⟨.image, [("image".data, "i".data)], []⟩]
          = ⟨.empty, [], vos⟩ :: tail) :=
  ⟨rfl,
   C6_parser_structure.2.2.2.2.2 [("a".data, ⟨"p".data, "v".data⟩)]
     [[("a".data, "x".data)], [("a".data, "y".data)]]
     [[("image".data, "i".data)]] _ _ (by decide) rfl
     (Or.inr ⟨[("image".data, "i".data)], [], rfl, rfl⟩) rfl,
   C6_parser_structure.1 [("a".data, ⟨"p".data, "v".data⟩)]
     ([[("a".data, "x".data)], [("a".data, "y".data)]]
       ++ [[("image".data, "i".data)]]) _ rfl⟩

/-! ## Lemmas about synthesis batching -/

lemma foldl_write_audio_request (fs : List Char → Bool)
    (vos : List VoiceOver) : ∀ acc : List Row,
    vos.foldl (write_audio_request fs) acc
      = acc ++ (vos.filter fun v => !fs v.hash_input).map
          (fun v => (⟨v.hash_input, v.voice, v.saml_text⟩ : Row)) := by
  induction vos with
  | nil => intro acc; simp
  | cons v vs ih =>
    intro acc
    rw [List.foldl_cons, ih]
    by_cases h : fs v.hash_input
    · simp [write_audio_request, h]
    · simp [write_audio_request, h]

lemma generate_audio_rows (fs : List Char → Bool) (slides : List ASlide) :
    ∀ acc : List Row,
    slides.foldl
        (fun acc slide => slide.voice_overs.foldl (write_audio_request fs) acc)
        acc
      = acc ++ ((slides.map ASlide.voice_overs).flatten.filter
            fun v => !fs v.hash_input).map
          (fun v => (⟨v.hash_input, v.voice, v.saml_text⟩ : Row)) := by
  induction slides with
  | nil => intro acc; simp
  | cons s ss ih =>
    intro acc
    rw [List.foldl_cons, ih, foldl_write_audio_request]
    simp [List.filter_append, List.append_assoc]

/-! ## C7: the batched request contains exactly the cache misses -/

/-- C7: `generate_audio` issues no backend request exactly when every
voice-over's target audio file already exists, and whenever it issues a
request, the request's rows are exactly the cache-miss voice-overs in
original order, each tagged with its cache key (the SHA-1 preimage standing
for `filename_base`) as the output filename stem. -/
theorem C7_cache_miss_batching :
    (∀ (fs : List Char → Bool) (slides : List ASlide),
      generate_audio fs slides = none
        ↔ ∀ v ∈ (slides.map ASlide.voice_overs).flatten, fs v.hash_input = true)
    ∧ (∀ (fs : List Char → Bool) (slides : List ASlide) (rows : List Row),
      generate_audio fs slides = some rows →
      rows = ((slides.map ASlide.voice_overs).flatten.filter
            fun v => !fs v.hash_input).map
          (fun v => ⟨v.hash_input, v.voice, v.saml_text⟩)) := by
  constructor
  · intro fs slides
    rw [generate_audio]
    simp only [generate_audio_rows fs slides [], List.nil_append]
    constructor
    · intro h v hv
      by_cases hfs : fs v.hash_input
      · exact hfs
      · exfalso
        split at h
        · next hnil =>
          have : v ∈ ((slides.map ASlide.voice_overs).flatten.filter
              fun v => !fs v.hash_input) := List.mem_filter.mpr ⟨hv, by simp [hfs]⟩
          rw [List.map_eq_nil_iff] at hnil
          rw [hnil] at this
          exact absurd this (List.not_mem_nil v)
        · exact absurd h (by simp)
    · intro h
      have hnil : ((slides.map ASlide.voice_overs).flatten.filter
          fun v => !fs v.hash_input) = [] := by
        rw [List.filter_eq_nil_iff]
        intro v hv
        simp [h v hv]
      rw [hnil]
      simp
  · intro fs slides rows h
    rw [generate_audio] at h
    simp only [generate_audio_rows fs slides [], List.nil_append] at h
    split at h
    · exact absurd h (by simp)
    · exact (Option.some.injEq _ _ ▸ h).symm

/-- C7 witness: one cached and one missing voice-over — the request contains
exactly the missing one, tagged with its key; and with everything cached, no
request is issued. -/
theorem C7_witness :
    (generate_audio (fun _ => true)
        [⟨[VoiceOver.make "a".data "v".data "x".data]⟩] = none
      ↔ ∀ v ∈ (([(⟨[VoiceOver.make "a".data "v".data "x".data]⟩ : ASlide)]).map
            ASlide.voice_overs).flatten, (fun _ => true) v.hash_input = true)
    ∧ ((generate_audio (fun _ => false)
        [⟨[VoiceOver.make "a".data "v".data "x".data]⟩])
      = some [⟨(VoiceOver.make "a".data "v".data "x".data).hash_input,
              "v".data,
              (VoiceOver.make "a".data "v".data "x".data).saml_text⟩]
      ∧ [(⟨(VoiceOver.make "a".data "v".data "x".data).hash_input, "v".data,
          (VoiceOver.make "a".data "v".data "x".data).saml_text⟩ : Row)]
        = ((([(⟨[VoiceOver.make "a".data "v".data "x".data]⟩ : ASlide)]).map
              ASlide.voice_overs).flatten.filter
            fun v => !(fun _ => false) v.hash_input).map
          (fun v => ⟨v.hash_input, v.voice, v.saml_text⟩)) :=
  ⟨C7_cache_miss_batching.1 (fun _ => true)
      [⟨[VoiceOver.make "a".data "v".data "x".data]⟩],
   rfl,
   C7_cache_miss_batching.2 (fun _ => false)
      [⟨[VoiceOver.make "a".data "v".data "x".data]⟩] _ rfl⟩

/-! ## Lemmas about the timeline compositor -/

lemma voLoop_snd (ds : List ℚ) : ∀ c, (voLoop c ds).2 = ds.sum := by
  induction ds with
  | nil => intro c; simp [voLoop]
  | cons d ds ih => intro c; simp [voLoop, ih]

lemma voLoop_caption_durations (ds : List ℚ) : ∀ c,
    (((voLoop c ds).1.filter fun l => l.kind == LayerKind.caption).map
      Layer.duration) = ds := by
  induction ds with
  | nil => intro c; simp [voLoop]
  | cons d ds ih => intro c; simp [voLoop, List.filter_cons, ih]

lemma voLoop_audio_durations (ds : List ℚ) : ∀ c,
    (((voLoop c ds).1.filter fun l => l.kind == LayerKind.audio).map
      Layer.duration) = ds := by
  induction ds with
  | nil => intro c; simp [voLoop]
  | cons d ds ih => intro c; simp [voLoop, List.filter_cons, ih]

lemma voLoop_bounds (ds : List ℚ) : ∀ c, (∀ d ∈ ds, 0 ≤ d) →
    ∀ l ∈ (voLoop c ds).1,
      c ≤ l.start ∧ 0 ≤ l.duration ∧ l.start + l.duration ≤ c + ds.sum := by
  induction ds with
  | nil => intro c _ l hl; simp [voLoop] at hl
  | cons d ds ih =>
    intro c hds l hl
    have hd : 0 ≤ d := hds d (List.mem_cons_self d ds)
    have hsum : 0 ≤ ds.sum :=
      List.sum_nonneg fun x hx => hds x (List.mem_cons_of_mem d hx)
    rw [voLoop] at hl
    simp only [List.mem_cons] at hl
    rcases hl with rfl | rfl | hl
    · refine ⟨le_refl c, hd, ?_⟩
      simp only [List.sum_cons]
      linarith
    · refine ⟨le_refl c, hd, ?_⟩
      simp only [List.sum_cons]
      linarith
    · obtain ⟨h1, h2, h3⟩ :=
        ih (c + d) (fun x hx => hds x (List.mem_cons_of_mem d hx)) l hl
      refine ⟨by linarith, h2, ?_⟩
      simp only [List.sum_cons]
      linarith

lemma slideStep_snd_lower (c : ℚ) (s : CSlide) :
    (voLoop c s.voDurations).2 ≤ (slideStep c s).2 := by
  rw [slideStep]
  cases s.min_duration with
  | none => exact le_refl _
  | some m =>
    dsimp only
    split
    · next h => exact le_of_lt h
    · exact le_refl _

lemma slideStep_snd_nonneg (c : ℚ) (s : CSlide)
    (h : ∀ d ∈ s.voDurations, 0 ≤ d) : 0 ≤ (slideStep c s).2 := by
  have h0 : 0 ≤ (voLoop c s.voDurations).2 := by
    rw [voLoop_snd]
    exact List.sum_nonneg h
  exact le_trans h0 (slideStep_snd_lower c s)

lemma slideStep_bounds (c : ℚ) (s : CSlide)
    (h : ∀ d ∈ s.voDurations, 0 ≤ d) :
    ∀ l ∈ (slideStep c s).1,
      c ≤ l.start ∧ 0 ≤ l.duration
        ∧ l.start + l.duration ≤ c + (slideStep c s).2 := by
  intro l hl
  have hvo := voLoop_bounds s.voDurations c h
  have hlower := slideStep_snd_lower c s
  have hsum : (voLoop c s.voDurations).2 = s.voDurations.sum :=
    voLoop_snd s.voDurations c
  rw [slideStep] at hl
  simp only [List.mem_append] at hl
  rcases hl with hl | hl
  · obtain ⟨h1, h2, h3⟩ := hvo l hl
    rw [hsum] at hlower
    exact ⟨h1, h2, by linarith⟩
  · rcases hvis : s.hasClip with _ | _
    · rw [hvis] at hl; simp at hl
    · rw [hvis] at hl
      simp only [if_true, List.mem_singleton] at hl
      subst hl
      refine ⟨le_refl c, slideStep_snd_nonneg c s h, le_refl _⟩

lemma composeLoop_le (slides : List CSlide) : ∀ c : ℚ,
    (∀ s ∈ slides, ∀ d ∈ s.voDurations, 0 ≤ d) →
    c ≤ (composeLoop c slides).2 := by
  induction slides with
  | nil => intro c _; exact le_refl c
  | cons s ss ih =>
    intro c hs
    rw [composeLoop]
    have h1 : 0 ≤ (slideStep c s).2 :=
      slideStep_snd_nonneg c s (hs s (List.mem_cons_self s ss))
    have h2 := ih (c + (slideStep c s).2)
      (fun x hx => hs x (List.mem_cons_of_mem s hx))
    dsimp only
    linarith

lemma composeLoop_bounds (slides : List CSlide) : ∀ c : ℚ,
    (∀ s ∈ slides, ∀ d ∈ s.voDurations, 0 ≤ d) →
    ∀ l ∈ (composeLoop c slides).1,
      c ≤ l.start ∧ 0 ≤ l.duration
        ∧ l.start + l.duration ≤ (composeLoop c slides).2 := by
  induction slides with
  | nil => intro c _ l hl; simp [composeLoop] at hl
  | cons s ss ih =>
    intro c hs l hl
    rw [composeLoop] at hl ⊢
    simp only [List.mem_append] at hl
    have hd : ∀ d ∈ s.voDurations, 0 ≤ d := hs s (List.mem_cons_self s ss)
    have hss : ∀ x ∈ ss, ∀ d ∈ x.voDurations, 0 ≤ d :=
      fun x hx => hs x (List.mem_cons_of_mem s hx)
    have htot := composeLoop_le ss (c + (slideStep c s).2) hss
    rcases hl with hl | hl
    · obtain ⟨h1, h2, h3⟩ := slideStep_bounds c s hd l hl
      exact ⟨h1, h2, by dsimp only; linarith⟩
    · obtain ⟨h1, h2, h3⟩ := ih (c + (slideStep c s).2) hss l hl
      have h0 : 0 ≤ (slideStep c s).2 := slideStep_snd_nonneg c s hd
      exact ⟨by linarith, h2, h3⟩

/-! ## C1: the min_duration floor -/

/-- C1: for a slide declaring `min_duration = m` whose voice-over durations
sum to less than `m`, the compositor's slide step advances the timeline by
`m` and emits the slide's visual layer with duration `m`, while every caption
layer and every audio layer keeps the duration of its own voice-over
(captions are not stretched). -/
theorem C1_min_duration_floor :
    ∀ (cursor : ℚ) (s : CSlide) (m : ℚ),
      s.min_duration = some m → s.voDurations.sum < m → s.hasClip = true →
      (slideStep cursor s).2 = m
      ∧ (slideStep cursor s).1
        = (voLoop cursor s.voDurations).1
            ++ [⟨.visual, cursor, m⟩]
      ∧ (((voLoop cursor s.voDurations).1.filter
            fun l => l.kind == LayerKind.caption).map Layer.duration)
        = s.voDurations
      ∧ (((voLoop cursor s.voDurations).1.filter
            fun l => l.kind == LayerKind.audio).map Layer.duration)
        = s.voDurations := by
  intro cursor s m hm hsum hclip
  have hvo : (voLoop cursor s.voDurations).2 = s.voDurations.sum :=
    voLoop_snd s.voDurations cursor
  have hstep : (slideStep cursor s).2 = m := by
    rw [slideStep, hm]
    dsimp only
    rw [hvo, if_pos hsum]
  refine ⟨hstep, ?_, voLoop_caption_durations s.voDurations cursor,
    voLoop_audio_durations s.voDurations cursor⟩
  rw [slideStep, hm, hclip]
  dsimp only
  rw [hvo, if_pos hsum]
  simp

/-- C1 witness: `min_duration = 5000` and voice-overs of durations 1000 and
2000 (summing to 3000): the visual layer spans 5000 while the caption and
audio layers keep durations 1000 and 2000. -/
theorem C1_witness :
    ((⟨[1000, 2000], some 5000, true⟩ : CSlide).min_duration = some 5000
      ∧ ([1000, 2000] : List ℚ).sum < 5000)
    ∧ ((slideStep 0 ⟨[1000, 2000], some 5000, true⟩).2 = 5000
      ∧ (slideStep 0 ⟨[1000, 2000], some 5000, true⟩).1
        = (voLoop 0 [1000, 2000]).1 ++ [⟨.visual, 0, 5000⟩]
      ∧ (((voLoop (0 : ℚ) [1000, 2000]).1.filter
            fun l => l.kind == LayerKind.caption).map Layer.duration)
        = [1000, 2000]
      ∧ (((voLoop (0 : ℚ) [1000, 2000]).1.filter
            fun l => l.kind == LayerKind.audio).map Layer.duration)
        = [1000, 2000])
    ∧ ([1000, 2000] : List ℚ).sum = 3000 :=
  ⟨⟨rfl, by norm_num⟩,
   C1_min_duration_floor 0 ⟨[1000, 2000], some 5000, true⟩ 5000 rfl
     (by norm_num) rfl,
   by norm_num⟩

/-! ## C8: layer bounds -/

/-- C8 (amended): every layer the compositor emits — audio, caption, slide
visual, background fill, character portrait — satisfies `start ≥ 0`,
`duration ≥ 0` and `start + duration ≤ total_duration`, provided every
voice-over's synthesized audio duration is nonnegative. The original claim's
strict `duration > 0` fails: a slide with a visual but no voice-overs and no
`min_duration` yields a zero-duration visual layer (see the
counterexample). -/
theorem C8_layer_bounds :
    ∀ (slides : List CSlide) (n : ℕ),
      (∀ s ∈ slides, ∀ d ∈ s.voDurations, 0 ≤ d) →
      ∀ l ∈ (compose slides n).1,
        0 ≤ l.start ∧ 0 ≤ l.duration
          ∧ l.start + l.duration ≤ (compose slides n).2 := by
  intro slides n hs l hl
  have htot : (0 : ℚ) ≤ (composeLoop 0 slides).2 := composeLoop_le slides 0 hs
  rw [compose] at hl
  simp only [List.mem_cons, List.mem_append] at hl
  rcases hl with (rfl | hl) | hl
  · exact ⟨le_refl 0, htot, by simp [compose]⟩
  · obtain ⟨h1, h2, h3⟩ := composeLoop_bounds slides 0 hs l hl
    exact ⟨h1, h2, by simpa [compose] using h3⟩
  · have hll := List.eq_of_mem_replicate hl
    subst hll
    exact ⟨le_refl 0, htot, by simp [compose]⟩

/-- C8 counterexample: the pipeline-reachable timeline of an Empty slide
with one voice-over of duration 2 followed by an image slide with no
voice-overs and no `min_duration` emits a zero-duration visual layer,
refuting the claimed strict `duration > 0`. -/
theorem C8_counterexample :
    (⟨.visual, 2, 0⟩ : Layer)
      ∈ (compose [⟨[2], none, false⟩, ⟨[], none, true⟩] 1).1
    ∧ (compose [⟨[2], none, false⟩, ⟨[], none, true⟩] 1).2 = 2
    ∧ ¬ (0 : ℚ) < (⟨.visual, 2, 0⟩ : Layer).duration := by
  have h : (compose [⟨[2], none, false⟩, ⟨[], none, true⟩] 1).1
      = [⟨.background, 0, 2⟩, ⟨.audio, 0, 2⟩, ⟨.caption, 0, 2⟩,
         ⟨.visual, 2, 0⟩, ⟨.portrait, 0, 2⟩] := by
    norm_num [compose, composeLoop, slideStep, voLoop]
  refine ⟨?_, ?_, by norm_num⟩
  · rw [h]; simp
  · norm_num [compose, composeLoop, slideStep, voLoop]

/-- C8 witness: the amended bounds at a concrete one-slide timeline. -/
theorem C8_witness :
    (∀ s ∈ [(⟨[2], none, true⟩ : CSlide)], ∀ d ∈ s.voDurations, (0 : ℚ) ≤ d)
    ∧ (∀ l ∈ (compose [(⟨[2], none, true⟩ : CSlide)] 1).1,
        0 ≤ l.start ∧ 0 ≤ l.duration
          ∧ l.start + l.duration ≤ (compose [(⟨[2], none, true⟩ : CSlide)] 1).2) :=
  have hvd : ∀ s ∈ [(⟨[2], none, true⟩ : CSlide)],
      ∀ d ∈ s.voDurations, (0 : ℚ) ≤ d := by
    intro s hs d hd
    rw [List.mem_singleton] at hs
    subst hs
    rw [show (⟨[2], none, true⟩ : CSlide).voDurations = [2] from rfl,
      List.mem_singleton] at hd
    subst hd
    norm_num
  ⟨hvd, C8_layer_bounds [(⟨[2], none, true⟩ : CSlide)] 1 hvd⟩

/-! ## C9: image fitting, shrink case -/

/-- C9: with no fixed zoom, an image exceeding the frame in at least one
dimension is scaled by the smaller of the two frame/image axis ratios — that
is, scaled *down* by the larger of the two image/frame overflow ratios — so
it fits inside the frame with its aspect ratio preserved, and it is centered
in the frame on both axes. -/
theorem C9_image_fit_shrink :
    ∀ (fx fy fw fh iw ihh : ℚ) (ztf : Bool),
      0 < fw → 0 < fh → 0 < iw → 0 < ihh → (fw < iw ∨ fh < ihh) →
      (ImageSlide_fit fx fy fw fh iw ihh ztf none).width
          = iw * min (fw / iw) (fh / ihh)
      ∧ (ImageSlide_fit fx fy fw fh iw ihh ztf none).height
          = ihh * min (fw / iw) (fh / ihh)
      ∧ min (fw / iw) (fh / ihh) < 1
      ∧ (ImageSlide_fit fx fy fw fh iw ihh ztf none).width ≤ fw
      ∧ (ImageSlide_fit fx fy fw fh iw ihh ztf none).height ≤ fh
      ∧ (ImageSlide_fit fx fy fw fh iw ihh ztf none).width * ihh
          = (ImageSlide_fit fx fy fw fh iw ihh ztf none).height * iw
      ∧ (ImageSlide_fit fx fy fw fh iw ihh ztf none).x
          = fx + (fw - (ImageSlide_fit fx fy fw fh iw ihh ztf none).width) / 2
      ∧ (ImageSlide_fit fx fy fw fh iw ihh ztf none).y
          = fy + (fh - (ImageSlide_fit fx fy fw fh iw ihh ztf none).height) / 2 := by
  intro fx fy fw fh iw ihh ztf hfw hfh hiw hihh hover
  have hminlt : min (fw / iw) (fh / ihh) < 1 := by
    rcases hover with h | h
    · exact lt_of_le_of_lt (min_le_left _ _) ((div_lt_one hiw).mpr h)
    · exact lt_of_le_of_lt (min_le_right _ _) ((div_lt_one hihh).mpr h)
  rw [ImageSlide_fit]
  dsimp only
  rw [if_pos hover]
  have hiw0 : iw ≠ 0 := ne_of_gt hiw
  have hih0 : ihh ≠ 0 := ne_of_gt hihh
  by_cases hc : iw / fw > ihh / fh
  · rw [if_pos hc]
    dsimp only
    have hlt : ihh * fw < iw * fh := by
      have := (div_lt_div_iff₀ hfh hfw).mp hc
      linarith
    have hmin : min (fw / iw) (fh / ihh) = fw / iw := by
      apply min_eq_left
      rw [div_le_div_iff₀ hiw hihh]
      nlinarith
    rw [hmin] at hminlt ⊢
    refine ⟨by field_simp, by field_simp <;> ring, hminlt, le_refl fw, ?_,
      by field_simp <;> ring, by ring, by ring⟩
    rw [div_le_iff₀ hiw]
    nlinarith
  · rw [if_neg hc]
    dsimp only
    have hle : iw / fw ≤ ihh / fh := not_lt.mp hc
    have hle' : iw * fh ≤ ihh * fw := by
      have := (div_le_div_iff₀ hfw hfh).mp hle
      linarith
    have hmin : min (fw / iw) (fh / ihh) = fh / ihh := by
      apply min_eq_right
      rw [div_le_div_iff₀ hihh hiw]
      nlinarith
    rw [hmin] at hminlt ⊢
    refine ⟨by field_simp <;> ring, by field_simp, hminlt, ?_, le_refl fh,
      by field_simp <;> ring, by ring, by ring⟩
    rw [div_le_iff₀ hihh]
    nlinarith

/-- C9 witness: frame 400×300 at the origin, image 800×300 — scale factor
1/2, resulting size 400×150, centered vertically with y-offset 75. -/
theorem C9_witness :
    ((0 : ℚ) < 400 ∧ (0 : ℚ) < 300 ∧ (0 : ℚ) < 800
      ∧ ((400 : ℚ) < 800 ∨ (300 : ℚ) < 300))
    ∧ ((ImageSlide_fit 0 0 400 300 800 300 false none).width
        = 800 * min ((400 : ℚ) / 800) ((300 : ℚ) / 300)
      ∧ (ImageSlide_fit 0 0 400 300 800 300 false none).height
        = 300 * min ((400 : ℚ) / 800) ((300 : ℚ) / 300)
      ∧ min ((400 : ℚ) / 800) ((300 : ℚ) / 300) < 1
      ∧ (ImageSlide_fit 0 0 400 300 800 300 false none).width ≤ 400
      ∧ (ImageSlide_fit 0 0 400 300 800 300 false none).height ≤ 300
      ∧ (ImageSlide_fit 0 0 400 300 800 300 false none).width * 300
        = (ImageSlide_fit 0 0 400 300 800 300 false none).height * 800
      ∧ (ImageSlide_fit 0 0 400 300 800 300 false none).x
        = 0 + (400 - (ImageSlide_fit 0 0 400 300 800 300 false none).width) / 2
      ∧ (ImageSlide_fit 0 0 400 300 800 300 false none).y
        = 0 + (300 - (ImageSlide_fit 0 0 400 300 800 300 false none).height) / 2)
    ∧ (ImageSlide_fit 0 0 400 300 800 300 false none).width = 400
    ∧ (ImageSlide_fit 0 0 400 300 800 300 false none).height = 150
    ∧ (ImageSlide_fit 0 0 400 300 800 300 false none).y = 75 :=
  ⟨⟨by norm_num, by norm_num, by norm_num, by norm_num⟩,
   C9_image_fit_shrink 0 0 400 300 800 300 false (by norm_num) (by norm_num)
     (by norm_num) (by norm_num) (by norm_num),
   by norm_num [ImageSlide_fit], by norm_num [ImageSlide_fit],
   by norm_num [ImageSlide_fit]⟩

/-! ## C2: image fitting, zoom_to_fit case -/

/-- C2: the code's `zoom_to_fit` branch at the claim's concrete input. The
claim (and the source's own comment, "zoom in by the smaller ratio to
scale") prescribes scale factor 3 = min(400/100, 300/100) and resulting size
300×300; the code's branches are swapped and it scales by the LARGER ratio
4, producing 400×400 — exceeding the frame height. -/
theorem C2_zoom_to_fit_code_behavior :
    (ImageSlide_fit 0 0 400 300 100 100 true none).width = 400
    ∧ (ImageSlide_fit 0 0 400 300 100 100 true none).height = 400
    ∧ (ImageSlide_fit 0 0 400 300 100 100 true none).height > 300
    ∧ ¬ ((ImageSlide_fit 0 0 400 300 100 100 true none).width = 300
        ∧ (ImageSlide_fit 0 0 400 300 100 100 true none).height = 300) := by
  norm_num [ImageSlide_fit]

/-! ## C4: failure policy of the synthesis backend call -/

/-- C4: the claim says a non-zero exit of the batch synthesis backend is
fatal. In the source, `generate_audio` invokes mimic3 via `subprocess.run`
WITHOUT `check=True`, so a non-zero exit raises nothing and the pipeline
proceeds; only the render step (`subprocess.run(["make"], check=True)`) is
fatal on non-zero exit. At a concrete cache-miss input with backend exit
code 1 the audio step returns successfully. -/
theorem C4_synthesis_failure_not_fatal :
    generate_audio_step (fun _ => false)
        [⟨[VoiceOver.make "a".data "v".data "x".data]⟩] 1
      = .ok (some [⟨(VoiceOver.make "a".data "v".data "x".data).hash_input,
                   "v".data,
                   (VoiceOver.make "a".data "v".data "x".data).saml_text⟩])
    ∧ make_step 1 = .error ()
    ∧ make_step 0 = .ok () :=
  ⟨rfl, rfl, rfl⟩

/-! ## C3: cache-key determinism and sensitivity -/

/-- C3 (amended). The cache key is computed by SHA-1 over
`VoiceOver.hash_input`; since SHA-1 is a fixed function, determinism and
key-changes are settled on that preimage. (1) The preimage is a pure function
of the four stored fields — identical inputs always yield the identical key.
(2)–(4) Changing `character`, `voice`, or `end_pause` alone always changes
the preimage. (5) Changing `text` alone changes the preimage exactly when the
derived `clean_text` (the stripped text with newlines collapsed) changes —
texts differing only in leading/trailing whitespace that `validate_text`
strips, or in a newline versus a space, yield the identical key, refuting the
original claim for the `text` field. -/
theorem C3_cache_key_sensitivity :
    (∀ v1 v2 : VoiceOver, v1.character = v2.character → v1.voice = v2.voice →
      v1.text = v2.text → v1.end_pause = v2.end_pause →
      v1.hash_input = v2.hash_input)
    ∧ (∀ c1 c2 v t p : List Char, c1 ≠ c2 →
      (VoiceOver.ofFields c1 v t p).hash_input
        ≠ (VoiceOver.ofFields c2 v t p).hash_input)
    ∧ (∀ c v1 v2 t p : List Char, v1 ≠ v2 →
      (VoiceOver.ofFields c v1 t p).hash_input
        ≠ (VoiceOver.ofFields c v2 t p).hash_input)
    ∧ (∀ c v t p1 p2 : List Char, p1 ≠ p2 →
      (VoiceOver.ofFields c v t p1).hash_input
        ≠ (VoiceOver.ofFields c v t p2).hash_input)
    ∧ (∀ c v t1 t2 p : List Char,
      (VoiceOver.ofFields c v t1 p).hash_input
          = (VoiceOver.ofFields c v t2 p).hash_input
        ↔ (VoiceOver.ofFields c v t1 p).clean_text
          = (VoiceOver.ofFields c v t2 p).clean_text) := by
  refine ⟨?_, ?_, ?_, ?_, ?_⟩
  · rintro ⟨c1, v1, t1, p1⟩ ⟨c2, v2, t2, p2⟩ hc hv ht hp
    dsimp only at hc hv ht hp
    subst hc; subst hv; subst ht; subst hp
    rfl
  · intro c1 c2 v t p hne heq
    simp only [VoiceOver.ofFields, VoiceOver.hash_input, VoiceOver.saml_text,
      VoiceOver.clean_text] at heq
    have h1 := List.append_cancel_right heq
    have h2 := List.append_cancel_right h1
    have h3 := List.append_cancel_right h2
    exact hne (List.append_cancel_right h3)
  · intro c v1 v2 t p hne heq
    simp only [VoiceOver.ofFields, VoiceOver.hash_input, VoiceOver.saml_text,
      VoiceOver.clean_text] at heq
    have h1 := List.append_cancel_right heq
    have h2 := List.append_cancel_right h1
    exact hne (List.append_cancel_left h2)
  · intro c v t p1 p2 hne heq
    simp only [VoiceOver.ofFields, VoiceOver.hash_input, VoiceOver.saml_text,
      VoiceOver.clean_text] at heq
    have h1 := List.append_cancel_left heq
    have h2 := List.append_cancel_right h1
    exact hne (List.append_cancel_left h2)
  · intro c v t1 t2 p
    constructor
    · intro heq
      simp only [VoiceOver.ofFields, VoiceOver.hash_input, VoiceOver.saml_text,
        VoiceOver.clean_text] at heq
      have h1 := List.append_cancel_left heq
      have h2 := List.append_cancel_right h1
      have h3 := List.append_cancel_right h2
      have h4 := List.append_cancel_right h3
      have h5 := List.append_cancel_left h4
      simp only [VoiceOver.ofFields, VoiceOver.clean_text]
      exact saxutils_escape_injective h5
    · intro h
      simp only [VoiceOver.ofFields, VoiceOver.clean_text] at h
      simp only [VoiceOver.ofFields, VoiceOver.hash_input, VoiceOver.saml_text,
        VoiceOver.clean_text]
      rw [h]

/-- C3 counterexample: the input texts `"hi"` and `" hi"` differ, yet —
because `validate_text` strips leading whitespace — the two voice-overs
produce the identical SHA-1 preimage and hence the identical cache key. -/
theorem C3_counterexample :
    "hi".data ≠ " hi".data
    ∧ (VoiceOver.ofFields "a".data "b".data "hi".data "500ms".data).hash_input
      = (VoiceOver.ofFields "a".data "b".data " hi".data
          "500ms".data).hash_input := by
  constructor
  · decide
  · decide

/-- C3 witness: the amended theorem instantiated at concrete field values. -/
theorem C3_witness :
    ((VoiceOver.ofFields "a".data "v".data "t".data "p".data).hash_input
      = (VoiceOver.ofFields "a".data "v".data "t".data "p".data).hash_input)
    ∧ ("a".data ≠ "b".data
      ∧ (VoiceOver.ofFields "a".data "v".data "t".data "p".data).hash_input
        ≠ (VoiceOver.ofFields "b".data "v".data "t".data "p".data).hash_input)
    ∧ ((VoiceOver.ofFields "a".data "v1".data "t".data "p".data).hash_input
        ≠ (VoiceOver.ofFields "a".data "v2".data "t".data "p".data).hash_input)
    ∧ ((VoiceOver.ofFields "a".data "v".data "t".data "300ms".data).hash_input
        ≠ (VoiceOver.ofFields "a".data "v".data "t".data "500ms".data).hash_input)
    ∧ ((VoiceOver.ofFields "a".data "v".data "x".data "p".data).hash_input
          = (VoiceOver.ofFields "a".data "v".data "y".data "p".data).hash_input
        ↔ (VoiceOver.ofFields "a".data "v".data "x".data "p".data).clean_text
          = (VoiceOver.ofFields "a".data "v".data "y".data "p".data).clean_text) :=
  ⟨C3_cache_key_sensitivity.1 _ _ rfl rfl rfl rfl,
   ⟨by decide, C3_cache_key_sensitivity.2.1 _ _ _ _ _ (by decide)⟩,
   C3_cache_key_sensitivity.2.2.1 _ _ _ _ _ (by decide),
   C3_cache_key_sensitivity.2.2.2.1 _ _ _ _ _ (by decide),
   C3_cache_key_sensitivity.2.2.2.2 _ _ _ _ _⟩

/-! ## C10: the synthesis payload -/

/-- C10: the synthesis payload `saml_text` is exactly the literal
`<speak>` followed by the entity-escaped clean text (each `&`, `<`, `>`
replaced by its entity reference, per `escChar`) followed by
`<break time='{end_pause}'/></speak>`; the escaped segment never contains a
raw `<` or `>`; and a `VoiceOver` constructed by the parser has the default
`end_pause` of `"500ms"`. -/
theorem C10_synthesis_payload :
    (∀ v : VoiceOver,
      v.saml_text = "<speak>".data ++ escMap v.clean_text
        ++ "<break time='".data ++ v.end_pause ++ "'/></speak>".data)
    ∧ (∀ s : List Char, '<' ∉ escMap s ∧ '>' ∉ escMap s)
    ∧ (∀ c v t : List Char, (VoiceOver.make c v t).end_pause = "500ms".data) :=
  ⟨fun v => by rw [VoiceOver.saml_text, saxutils_escape_eq_escMap],
   escMap_no_markup,
   fun _ _ _ => rfl⟩

/-- C10 witness: the payload equation, markup-freedom of the escaped
segment, and the `end_pause` default, at a concrete voice-over whose text
contains XML special characters. -/
theorem C10_witness :
    ((VoiceOver.make "n".data "v".data "a<b&c>d".data).saml_text
      = "<speak>".data
        ++ escMap (VoiceOver.make "n".data "v".data "a<b&c>d".data).clean_text
        ++ "<break time='".data
        ++ (VoiceOver.make "n".data "v".data "a<b&c>d".data).end_pause
        ++ "'/></speak>".data)
    ∧ ('<' ∉ escMap "a<b&c>d".data ∧ '>' ∉ escMap "a<b&c>d".data)
    ∧ (VoiceOver.make "n".data "v".data "a<b&c>d".data).end_pause
      = "500ms".data :=
  ⟨C10_synthesis_payload.1 _, C10_synthesis_payload.2.1 _,
   C10_synthesis_payload.2.2 _ _ _⟩

end TextToVideo
